import Mathlib

/-!
Shallow embedding of the EVE-Electricity-Witness evidence scripts
(`scripts/hash_tree.py` and `scripts/make_manifest.py`).

File contents are modelled as lists of byte values (`Nat` below 256);
`hashlib.sha256` is embedded as a full executable SHA-256 over `Nat`
with explicit reduction modulo 2^32.
-/

/-- Reduce a machine word modulo 2^32, as Python's 32-bit SHA-256 arithmetic does. -/
def mask32 (n : Nat) : Nat := n % 4294967296

/-- Right rotation of a 32-bit word by `k` bits. -/
def rotr (k n : Nat) : Nat := mask32 ((n >>> k) ||| (n <<< (32 - k)))

/-- The 64 SHA-256 round constants (FIPS 180-4, written in decimal). -/
def sha256K : List Nat :=
  [1116352408, 1899447441, 3049323471, 3921009573, 961987163, 1508970993,
   2453635748, 2870763221, 3624381080, 310598401, 607225278, 1426881987,
   1925078388, 2162078206, 2614888103, 3248222580, 3835390401, 4022224774,
   264347078, 604807628, 770255983, 1249150122, 1555081692, 1996064986,
   2554220882, 2821834349, 2952996808, 3210313671, 3336571891, 3584528711,
   113926993, 338241895, 666307205, 773529912, 1294757372, 1396182291,
   1695183700, 1986661051, 2177026350, 2456956037, 2730485921, 2820302411,
   3259730800, 3345764771, 3516065817, 3600352804, 4094571909, 275423344,
   430227734, 506948616, 659060556, 883997877, 958139571, 1322822218,
   1537002063, 1747873779, 1955562222, 2024104815, 2227730452, 2361852424,
   2428436474, 2756734187, 3204031479, 3329325298]

/-- The eight-word SHA-256 internal state. -/
structure H8 where
  a : Nat
  b : Nat
  c : Nat
  d : Nat
  e : Nat
  f : Nat
  g : Nat
  h : Nat
deriving Repr, DecidableEq

/-- The SHA-256 initial hash value (FIPS 180-4, written in decimal). -/
def sha256Init : H8 :=
  ⟨1779033703, 3144134277, 1013904242, 2773480762,
   1359893119, 2600822924, 528734635, 1541459225⟩

/-- SHA-256 message padding: append 0x80, zero bytes, then the 64-bit big-endian bit length. -/
def sha256Pad (msg : List Nat) : List Nat :=
  let len := msg.length
  msg ++ 0x80 :: List.replicate ((119 - len % 64) % 64) 0
      ++ (List.range 8).map (fun i => ((len * 8) >>> (8 * (7 - i))) % 256)

/-- Split a byte list into 64-byte blocks (fuelled so the kernel can reduce it). -/
def chunksAux (fuel : Nat) (l : List Nat) : List (List Nat) :=
  match fuel, l with
  | 0, _ => []
  | _, [] => []
  | fu + 1, l => l.take 64 :: chunksAux fu (l.drop 64)

/-- Split a byte list into 64-byte blocks. -/
def chunks64 (l : List Nat) : List (List Nat) := chunksAux l.length l

/-- Assemble the sixteen 32-bit big-endian words of one 64-byte block. -/
def bytesToWords (block : List Nat) : List Nat :=
  (List.range 16).map (fun i =>
    (block.getD (4 * i) 0 <<< 24) + (block.getD (4 * i + 1) 0 <<< 16) +
    (block.getD (4 * i + 2) 0 <<< 8) + block.getD (4 * i + 3) 0)

/-- SHA-256 lowercase sigma-0. -/
def smallS0 (x : Nat) : Nat := rotr 7 x ^^^ rotr 18 x ^^^ (x >>> 3)

/-- SHA-256 lowercase sigma-1. -/
def smallS1 (x : Nat) : Nat := rotr 17 x ^^^ rotr 19 x ^^^ (x >>> 10)

/-- SHA-256 uppercase Sigma-0. -/
def bigS0 (x : Nat) : Nat := rotr 2 x ^^^ rotr 13 x ^^^ rotr 22 x

/-- SHA-256 uppercase Sigma-1. -/
def bigS1 (x : Nat) : Nat := rotr 6 x ^^^ rotr 11 x ^^^ rotr 25 x

/-- SHA-256 choice function. -/
def chFn (x y z : Nat) : Nat := (x &&& y) ^^^ ((x ^^^ 0xFFFFFFFF) &&& z)

/-- SHA-256 majority function. -/
def majFn (x y z : Nat) : Nat := (x &&& y) ^^^ (x &&& z) ^^^ (y &&& z)

/-- Extend the sixteen block words to the 64-entry message schedule. -/
def msgSchedule (w16 : List Nat) : List Nat :=
  (List.range 48).foldl (fun w _ =>
    let n := w.length
    w ++ [mask32 (smallS1 (w.getD (n - 2) 0) + w.getD (n - 7) 0 +
                  smallS0 (w.getD (n - 15) 0) + w.getD (n - 16) 0)]) w16

/-- One SHA-256 compression round. -/
def roundStep (s : H8) (k w : Nat) : H8 :=
  let t1 := mask32 (s.h + bigS1 s.e + chFn s.e s.f s.g + k + w)
  let t2 := mask32 (bigS0 s.a + majFn s.a s.b s.c)
  ⟨mask32 (t1 + t2), s.a, s.b, s.c, mask32 (s.d + t1), s.e, s.f, s.g⟩

/-- Compress one 64-byte block into the running hash state. -/
def compressBlock (h0 : H8) (block : List Nat) : H8 :=
  let ws := msgSchedule (bytesToWords block)
  let s := (sha256K.zip ws).foldl (fun s kw => roundStep s kw.1 kw.2) h0
  ⟨mask32 (h0.a + s.a), mask32 (h0.b + s.b), mask32 (h0.c + s.c), mask32 (h0.d + s.d),
   mask32 (h0.e + s.e), mask32 (h0.f + s.f), mask32 (h0.g + s.g), mask32 (h0.h + s.h)⟩

/-- SHA-256 of a byte list, as the final eight-word state. -/
def sha256Words (msg : List Nat) : H8 :=
  (chunks64 (sha256Pad msg)).foldl compressBlock sha256Init

/-- Big-endian bytes of one 32-bit word. -/
def wordBytes (x : Nat) : List Nat :=
  [(x >>> 24) % 256, (x >>> 16) % 256, (x >>> 8) % 256, x % 256]

/-- SHA-256 of a byte list, as the 32-byte digest. -/
def sha256Bytes (msg : List Nat) : List Nat :=
  let s := sha256Words msg
  wordBytes s.a ++ wordBytes s.b ++ wordBytes s.c ++ wordBytes s.d ++
  wordBytes s.e ++ wordBytes s.f ++ wordBytes s.g ++ wordBytes s.h

/-- Lowercase hex character of a value below 16. -/
def hexChar (n : Nat) : Char :=
  if n < 10 then Char.ofNat (48 + n) else Char.ofNat (87 + n)

/-- Two lowercase hex characters of one byte. -/
def hexByte (b : Nat) : List Char := [hexChar (b / 16), hexChar (b % 16)]

/-- Hex digest string of a byte list, as Python's `hashlib.sha256(...).hexdigest()`. -/
def sha256Hex (msg : List Nat) : String :=
  ⟨((sha256Bytes msg).map hexByte).flatten⟩

/-- UTF-8 encoding of one character, as Python's `str.encode()`. -/
def utf8Char (c : Char) : List Nat :=
  let n := c.toNat
  if n < 0x80 then [n]
  else if n < 0x800 then [0xC0 + (n >>> 6), 0x80 + (n &&& 0x3F)]
  else if n < 0x10000 then
    [0xE0 + (n >>> 12), 0x80 + ((n >>> 6) &&& 0x3F), 0x80 + (n &&& 0x3F)]
  else
    [0xF0 + (n >>> 18), 0x80 + ((n >>> 12) &&& 0x3F),
     0x80 + ((n >>> 6) &&& 0x3F), 0x80 + (n &&& 0x3F)]

/-- UTF-8 bytes of a string, as Python's `str.encode()`. -/
def strBytes (s : String) : List Nat := (s.data.map utf8Char).flatten

/-- SHA-256 hex digest of the UTF-8 bytes of a string,
as Python's `hashlib.sha256(s.encode()).hexdigest()`. -/
def sha256HexStr (s : String) : String := sha256Hex (strBytes s)

/-- Concatenation of a list of strings, as Python's `"".join(...)`. -/
def strConcat (l : List String) : String := l.foldl (fun a b => a ++ b) ""

/-- Code-point lexicographic order on character lists, as Python compares strings. -/
def leChars : List Char → List Char → Bool
  | [], _ => true
  | _ :: _, [] => false
  | a :: as, b :: bs =>
    if a.toNat < b.toNat then true
    else if b.toNat < a.toNat then false
    else leChars as bs

/-- Code-point lexicographic order on strings, as Python's `<=` on `str`. -/
def leStr (a b : String) : Bool := leChars a.data b.data

/-- Insert an element into a list sorted by a string key. -/
def insortKey (key : α → String) (x : α) : List α → List α
  | [] => [x]
  | y :: ys => if leStr (key x) (key y) then x :: y :: ys else y :: insortKey key x ys

/-- Sort a list by a string key, as Python's `sorted` with that key (the result is the
unique sorted permutation, since the key order is total and ties only occur on equal keys). -/
def sortKey (key : α → String) (l : List α) : List α := l.foldr (insortKey key) []

/-- Sort a list of strings into ascending code-point order, as Python's `sorted`. -/
def sortStrings : List String → List String := sortKey (fun s => s)

/-- One regular file below the scanned directory: its path relative to that
directory (with the platform separator) and its content, `none` when the file
is unreadable (Python `open`/`read` raises `OSError`). `rglob` enumeration and
the `is_file()` test are modelled by listing exactly the regular files. -/
structure FSFile where
  relPath : String
  data : Option (List Nat)
deriving Repr, DecidableEq

/-- The state of a path handed to the scripts: missing, existing but not a
directory, or a directory with its regular files. -/
inductive DirState where
  | missing
  | notDir
  | dir (files : List FSFile)
deriving Repr, DecidableEq

/-- The error kinds a run can abort with (§7 taxonomy): `invalidInput` models
`ValueError`/argparse rejection, `ioFailure` an `OSError` while reading a file,
`emptyResult` the `sys.exit(1)` on an empty file collection. -/
inductive Err where
  | invalidInput
  | ioFailure
  | emptyResult
deriving Repr, DecidableEq

/-- Replace every backslash with a forward slash, as `str(path).replace("\x5c\x5c", "/")`. -/
def toPosix (s : String) : String := ⟨s.data.map (fun c => if c = '\\' then '/' else c)⟩

/-- Final path component, as Python's `path.name`. -/
def baseName (p : String) : String := ⟨(p.data.reverse.takeWhile (fun c => c ≠ '/')).reverse⟩

/-- Whether a string starts with a dot, as `name.startswith(".")`. -/
def startsDot (s : String) : Bool :=
  match s.data with
  | [] => false
  | c :: _ => c = '.'

/-- The shared inclusion test of both scripts:
`path.is_file() and not path.name.startswith(".")` (the `is_file()` half is
modelled by `FSFile` holding only regular files). -/
def isEligible (f : FSFile) : Bool := !startsDot (baseName f.relPath)

/-- Sort files by path, as `sorted(directory.rglob("*"))` (full paths share the
scanned directory as a common prefix, so comparing them equals comparing the
relative paths). -/
def sortFS : List FSFile → List FSFile := sortKey (fun f => f.relPath)

/-- The files both scripts iterate over: sorted enumeration filtered by
`path.is_file() and not path.name.startswith(".")`. -/
def eligibleFiles (fs : List FSFile) : List FSFile := (sortFS fs).filter isEligible

/-- Hash one file's bytes, as `sha256_file`; an unreadable file raises `OSError`. -/
def sha256_file (data : Option (List Nat)) : Except Err String :=
  match data with
  | none => .error .ioFailure
  | some bs => .ok (sha256Hex bs)

/-- One entry of `hash_tree`'s `files` list:
`{"path": ..., "sha256": ..., "size_bytes": ...}`. -/
structure HEntry where
  path : String
  sha256 : String
  size_bytes : Nat
deriving Repr, DecidableEq

/-- The dictionary returned by `hash_tree`. -/
structure TreeResult where
  directory : String
  file_count : Nat
  files : List HEntry
  root_hash : String
  computed_at : String
deriving Repr, DecidableEq

/-- The entry-building loop of `hash_tree`: for each file (already sorted and
filtered) record relative path, digest and size; the first unreadable file
aborts the whole loop. -/
def hashEntries : List FSFile → Except Err (List HEntry)
  | [] => .ok []
  | f :: fs =>
    match sha256_file f.data with
    | .error e => .error e
    | .ok h =>
      match hashEntries fs with
      | .error e => .error e
      | .ok rest => .ok (⟨toPosix f.relPath, h, (f.data.getD []).length⟩ :: rest)

/-- Root hash of `hash_tree` (lines 58-60): sort the per-file hex digests,
concatenate, hash the UTF-8 bytes of the concatenation. -/
def rootHashOf (entries : List HEntry) : String :=
  sha256HexStr (strConcat (sortStrings (entries.map (fun e => e.sha256))))

/-- The `hash_tree` function: reject a missing or non-directory path with
`ValueError`, then hash every eligible file and combine the digests. -/
def hash_tree (directory : String) (st : DirState) (computedAt : String) :
    Except Err TreeResult :=
  match st with
  | .missing => .error .invalidInput
  | .notDir => .error .invalidInput
  | .dir fs =>
    match hashEntries (eligibleFiles fs) with
    | .error e => .error e
    | .ok entries =>
      .ok { directory := directory, file_count := entries.length, files := entries,
            root_hash := rootHashOf entries, computed_at := computedAt }

/-- The text artifacts `main` of `hash_tree.py` writes (`files.sha256` and
`root_hash.txt` contents, byte for byte) together with the result it
serializes to `hash_tree.json`. -/
structure HtOutputs where
  files_sha256 : String
  root_hash_txt : String
  result : TreeResult
deriving Repr, DecidableEq

/-- The `main` of `hash_tree.py`: run `hash_tree`, then (only on success) write
one `"{sha256}  {path}\n"` line per entry and the root hash line. -/
def htMain (directory : String) (st : DirState) (computedAt : String) :
    Except Err HtOutputs :=
  match hash_tree directory st computedAt with
  | .error e => .error e
  | .ok r =>
    .ok { files_sha256 := strConcat (r.files.map (fun e => e.sha256 ++ "  " ++ e.path ++ "\n")),
          root_hash_txt := r.root_hash ++ "\n",
          result := r }

/-- A parsed JSON value, as returned by Python's `json.load`. Number lexemes
are kept verbatim (their numeric value is immaterial to the scripts, which
only test `isinstance(data, list)` and take `len`). -/
inductive JVal where
  | null
  | boolean (b : Bool)
  | num (lexeme : String)
  | str (s : String)
  | arr (xs : List JVal)
  | obj (fields : List (String × JVal))
deriving Repr

/-- JSON whitespace. -/
def isWsChar (c : Char) : Bool := c = ' ' || c = '\t' || c = '\n' || c = '\r'

/-- Drop leading JSON whitespace. -/
def skipWs (cs : List Char) : List Char := cs.dropWhile isWsChar

/-- ASCII digit test. -/
def isDigitChar (c : Char) : Bool := 48 ≤ c.toNat && c.toNat ≤ 57

/-- Resolve a single-character JSON escape. -/
def escChar (c : Char) : Option Char :=
  if c = '"' then some '"'
  else if c = '\\' then some '\\'
  else if c = '/' then some '/'
  else if c = 'b' then some (Char.ofNat 8)
  else if c = 'f' then some (Char.ofNat 12)
  else if c = 'n' then some '\n'
  else if c = 'r' then some '\r'
  else if c = 't' then some '\t'
  else none

/-- Scan a JSON string body up to its closing quote (single-character escapes
only; a `\u` escape is treated as a parse failure). -/
def scanStr : List Char → Option (List Char × List Char)
  | [] => none
  | c :: cs =>
    if c = '"' then some ([], cs)
    else if c = '\\' then
      match cs with
      | [] => none
      | e :: cs2 =>
        match escChar e, scanStr cs2 with
        | some ec, some (s, r) => some (ec :: s, r)
        | _, _ => none
    else
      match scanStr cs with
      | some (s, r) => some (c :: s, r)
      | none => none

/-- Scan an optional JSON fraction part. -/
def scanFrac (cs : List Char) : Option (List Char × List Char) :=
  match cs with
  | '.' :: rest =>
    let ds := rest.takeWhile isDigitChar
    if ds.isEmpty then none else some ('.' :: ds, rest.dropWhile isDigitChar)
  | _ => some ([], cs)

/-- Scan an optional JSON exponent part. -/
def scanExp (cs : List Char) : Option (List Char × List Char) :=
  match cs with
  | [] => some ([], cs)
  | c :: rest =>
    if c = 'e' || c = 'E' then
      let sr : List Char × List Char :=
        match rest with
        | s :: r2 => if s = '+' || s = '-' then ([s], r2) else ([], rest)
        | [] => ([], rest)
      let ds := sr.2.takeWhile isDigitChar
      if ds.isEmpty then none
      else some (c :: (sr.1 ++ ds), sr.2.dropWhile isDigitChar)
    else some ([], cs)

/-- Scan a JSON number (sign, integer part without leading zeros, optional
fraction and exponent). -/
def scanNum (cs : List Char) : Option (List Char × List Char) :=
  let sc : List Char × List Char :=
    match cs with
    | '-' :: rest => (['-'], rest)
    | _ => ([], cs)
  let ip := sc.2.takeWhile isDigitChar
  let cs2 := sc.2.dropWhile isDigitChar
  if ip.isEmpty then none
  else if 1 < ip.length && ip.headD '0' = '0' then none
  else
    match scanFrac cs2 with
    | none => none
    | some (fp, cs3) =>
      match scanExp cs3 with
      | none => none
      | some (ep, cs4) => some (sc.1 ++ ip ++ fp ++ ep, cs4)

mutual

/-- Recursive-descent JSON value scan, fuelled so that the kernel can reduce
it; the fuel passed by `jsonLoad` always suffices. -/
def parseVal : Nat → List Char → Option (JVal × List Char)
  | 0, _ => none
  | fuel + 1, cs0 =>
    let cs := skipWs cs0
    match cs with
    | [] => none
    | c :: rest =>
      if c = 'n' then
        match rest with
        | 'u' :: 'l' :: 'l' :: r => some (.null, r)
        | _ => none
      else if c = 't' then
        match rest with
        | 'r' :: 'u' :: 'e' :: r => some (.boolean true, r)
        | _ => none
      else if c = 'f' then
        match rest with
        | 'a' :: 'l' :: 's' :: 'e' :: r => some (.boolean false, r)
        | _ => none
      else if c = '"' then
        match scanStr rest with
        | some (s, r) => some (.str ⟨s⟩, r)
        | none => none
      else if c = '[' then
        match skipWs rest with
        | ']' :: r2 => some (.arr [], r2)
        | r1 =>
          match parseItems fuel r1 with
          | some (xs, r2) => some (.arr xs, r2)
          | none => none
      else if c = '{' then
        match skipWs rest with
        | '}' :: r2 => some (.obj [], r2)
        | r1 =>
          match parseFields fuel r1 with
          | some (fsx, r2) => some (.obj fsx, r2)
          | none => none
      else if c = '-' || isDigitChar c then
        match scanNum cs with
        | some (lex, r) => some (.num ⟨lex⟩, r)
        | none => none
      else none

/-- Comma-separated JSON array items up to the closing bracket. -/
def parseItems : Nat → List Char → Option (List JVal × List Char)
  | 0, _ => none
  | fuel + 1, cs =>
    match parseVal fuel cs with
    | none => none
    | some (v, r) =>
      match skipWs r with
      | ',' :: r2 =>
        match parseItems fuel r2 with
        | some (xs, r3) => some (v :: xs, r3)
        | none => none
      | ']' :: r2 => some ([v], r2)
      | _ => none

/-- Comma-separated JSON object members up to the closing brace. -/
def parseFields : Nat → List Char → Option (List (String × JVal) × List Char)
  | 0, _ => none
  | fuel + 1, cs =>
    match skipWs cs with
    | [] => none
    | c :: rest =>
      if c = '"' then
        match scanStr rest with
        | none => none
        | some (k, r) =>
          match skipWs r with
          | ':' :: r2 =>
            match parseVal fuel r2 with
            | none => none
            | some (v, r3) =>
              match skipWs r3 with
              | ',' :: r4 =>
                match parseFields fuel r4 with
                | some (fsx, r5) => some ((⟨k⟩, v) :: fsx, r5)
                | none => none
              | '}' :: r4 => some ([(⟨k⟩, v)], r4)
              | _ => none
          | _ => none
      else none

end

/-- Decode bytes as text, as `open(path)` + read do before `json.load` parses
them; modelled for ASCII input, with non-ASCII bytes treated as a decode
failure (which the caller swallows as zero records). -/
def decodeAscii (bs : List Nat) : Option (List Char) :=
  if bs.all (fun b => b < 128) then some (bs.map Char.ofNat) else none

/-- Python's `json.load` on a file's bytes: decode, parse one value, and require
only whitespace after it; any failure yields `none` (an exception in Python). -/
def jsonLoad (bs : List Nat) : Option JVal :=
  match decodeAscii bs with
  | none => none
  | some cs =>
    match parseVal (2 * cs.length + 4) cs with
    | some (v, rest) => if (skipWs rest).isEmpty then some v else none
    | none => none

/-- Suffix test on strings (code-point wise), as Python's `str.endswith`. -/
def endsWithStr (s suf : String) : Bool := suf.data.isSuffixOf s.data

/-- One entry of the manifest's `files` list, as built by `collect_files`. -/
structure MEntry where
  path : String
  sha256 : String
  size_bytes : Nat
  stage : String
deriving Repr, DecidableEq

/-- A directory argument of `make_manifest.py`: the path string passed on the
command line together with the state of that path on disk. -/
structure DirArg where
  path : String
  st : DirState
deriving Repr, DecidableEq

/-- The entry-building loop of `collect_files`: for each file (already sorted
and filtered) record the full path `str(path)` (the argument path joined with
the path below it), digest, size and stage; the first unreadable file aborts
the loop. -/
def collectEntries (dirPath stage : String) : List FSFile → Except Err (List MEntry)
  | [] => .ok []
  | f :: fs =>
    match sha256_file f.data with
    | .error e => .error e
    | .ok h =>
      match collectEntries dirPath stage fs with
      | .error e => .error e
      | .ok rest =>
        .ok (⟨toPosix (dirPath ++ "/" ++ f.relPath), h, (f.data.getD []).length, stage⟩ :: rest)

/-- The `collect_files` function of `make_manifest.py`: a missing path yields
an empty list (the explicit `if not directory.exists(): return entries`), a
path that exists but is not a directory also yields an empty list (`rglob` on
a non-directory produces nothing), and a directory is enumerated sorted with
hidden files excluded. -/
def collect_files (d : DirArg) (stage : String) : Except Err (List MEntry) :=
  match d.st with
  | .missing => .ok []
  | .notDir => .ok []
  | .dir fs => collectEntries d.path stage (eligibleFiles fs)

/-- The `compute_root_hash` function of `make_manifest.py` (lines 84-86):
sort the per-file hex digests, concatenate, hash the UTF-8 bytes. -/
def compute_root_hash (files : List MEntry) : String :=
  sha256HexStr (strConcat (sortStrings (files.map (fun f => f.sha256))))

/-- The static `SOURCE_REGISTRY` of `make_manifest.py`: name, url, license. -/
def SOURCE_REGISTRY : List (String × String × String) :=
  [("entsoe_day_ahead", "https://transparency.entsoe.eu/", "ENTSO-E Open Data"),
   ("eurostat_hdd", "https://ec.europa.eu/eurostat/", "Eurostat Copyright/CC BY 4.0"),
   ("eurostat_price_components", "https://ec.europa.eu/eurostat/", "Eurostat Copyright/CC BY 4.0"),
   ("smhi_temperature", "https://opendata.smhi.se/", "CC BY 4.0"),
   ("copernicus_temperature", "https://climate.copernicus.eu/", "Copernicus Open Access"),
   ("building_profiles", "https://elekto.se/docs/assumptions", "MIT (curated by ELEKTO EU)")]

/-- Registry lookup; `argparse`'s `choices=list(SOURCE_REGISTRY.keys())`
rejects any other source name before the script body runs. -/
def lookupSource (name : String) : Option (String × String) :=
  (SOURCE_REGISTRY.find? (fun e => e.1 == name)).map (fun e => e.2)

/-- The command-line arguments of `make_manifest.py` that the core consumes.
Optional string arguments are `none` when omitted. -/
structure Args where
  source : String
  raw : DirArg
  canonical : DirArg
  derived : Option DirArg
  script : String
  script_version : String
  country : Option String
  zone : Option String
  period_start : Option String
  period_end : Option String
deriving Repr, DecidableEq

/-- Python's `a or b` for an optional string: the supplied value unless it is
absent or empty (both falsy), else the default. -/
def pyOrStr (o : Option String) (dflt : String) : String :=
  match o with
  | some s => if s = "" then dflt else s
  | none => dflt

/-- Append one `parameters` mapping entry when the argument is truthy, as the
`if args.country: parameters["country"] = ...` lines. -/
def addParam (ps : List (String × String)) (key : String) (v : Option String) :
    List (String × String) :=
  match v with
  | some s => if s = "" then ps else ps ++ [(key, s)]
  | none => ps

/-- The regular files of a directory argument ([] when missing or not a
directory). -/
def dirFiles (d : DirArg) : List FSFile :=
  match d.st with
  | .dir fs => fs
  | _ => []

/-- All directory arguments a run reads from, in collection order. -/
def allDirs (a : Args) : List DirArg :=
  [a.raw, a.canonical] ++ (match a.derived with | some d => [d] | none => [])

/-- Re-open a recorded path, as `open(f["path"])` during record counting: find
the file whose recorded full path matches; an unreadable or vanished file
yields `none` (the raised exception is swallowed by the caller). -/
def openPath (a : Args) (p : String) : Option (List Nat) :=
  match ((allDirs a).flatMap
      (fun d => (dirFiles d).map
        (fun f => (toPosix (d.path ++ "/" ++ f.relPath), f.data)))).find?
      (fun e => e.1 == p) with
  | some e => e.2
  | none => none

/-- The records one file contributes to `record_count`: the length of its
parsed top-level list, and zero on any read or parse failure or when the
top-level value is not a list (`except Exception: pass`). -/
def fileRecordCount (a : Args) (f : MEntry) : Nat :=
  match openPath a f.path with
  | none => 0
  | some bs =>
    match jsonLoad bs with
    | some (.arr xs) => xs.length
    | _ => 0

/-- The record-counting loop of `main` (lines 122-132): every canonical-stage
file whose path ends in `.json` contributes its parsed list length. -/
def countRecords (a : Args) (files : List MEntry) : Nat :=
  files.foldl
    (fun acc f =>
      if f.stage == "canonical" && endsWithStr f.path ".json" then
        acc + fileRecordCount a f
      else acc) 0

/-- The manifest dictionary `make_manifest.py` builds and writes (the fields
the core computes; `manifest_id`, timestamps and the random disambiguator
take `dateStr`, `uid` and `now` as parameters of the run). -/
structure Manifest where
  manifest_id : String
  source_name : String
  source_url : String
  source_license : String
  dataset_id : String
  fetched_at : String
  script : String
  script_version : String
  parameters : List (String × String)
  files : List MEntry
  root_hash : String
  record_count : Nat
  created_at : String
deriving Repr, DecidableEq

/-- The derived-stage collection: run only when `--derived` was supplied
(`if args.derived:`), otherwise contribute nothing. -/
def collectDerived (a : Args) : Except Err (List MEntry) :=
  match a.derived with
  | some d => collect_files d "derived"
  | none => .ok []

/-- The `main` of `make_manifest.py`: resolve the source (argparse `choices`),
collect raw, canonical and (when supplied) derived files, abort with
`EmptyResult` when the combined collection is empty, then compute root hash,
record count and the manifest record; the manifest file is written only at
the very end of this computation. -/
def mmMain (a : Args) (dateStr uid now : String) : Except Err Manifest :=
  match lookupSource a.source with
  | none => .error .invalidInput
  | some meta =>
    match collect_files a.raw "raw" with
    | .error e => .error e
    | .ok raws =>
      match collect_files a.canonical "canonical" with
      | .error e => .error e
      | .ok canons =>
        match collectDerived a with
        | .error e => .error e
        | .ok deriveds =>
          let all_files := raws ++ canons ++ deriveds
          if all_files.isEmpty then .error .emptyResult
          else
            .ok { manifest_id := "IM-" ++ a.source ++ "-" ++ dateStr ++ "-" ++ uid,
                  source_name := a.source,
                  source_url := meta.1,
                  source_license := meta.2,
                  dataset_id := a.source ++ "_" ++ pyOrStr a.period_start dateStr,
                  fetched_at := now,
                  script := a.script,
                  script_version := a.script_version,
                  parameters := addParam (addParam (addParam (addParam []
                    "country" a.country) "bidding_zone" a.zone)
                    "period_start" a.period_start) "period_end" a.period_end,
                  files := all_files,
                  root_hash := compute_root_hash all_files,
                  record_count := countRecords a all_files,
                  created_at := now }

/-- Decidable equality of run results, so concrete runs can be checked by
`decide`. -/
instance exceptDecEq {ε α : Type} [DecidableEq ε] [DecidableEq α] :
    DecidableEq (Except ε α) := fun x y =>
  match x, y with
  | .error a, .error b =>
    if h : a = b then isTrue (by rw [h])
    else isFalse (fun hc => h (by injection hc))
  | .error _, .ok _ => isFalse (fun hc => Except.noConfusion hc)
  | .ok _, .error _ => isFalse (fun hc => Except.noConfusion hc)
  | .ok a, .ok b =>
    if h : a = b then isTrue (by rw [h])
    else isFalse (fun hc => h (by injection hc))

set_option maxRecDepth 1000000

/-! ### Properties of the embedded string order -/

theorem leChars_total (a b : List Char) : leChars a b = true ∨ leChars b a = true := by
  induction a generalizing b with
  | nil => left; rfl
  | cons x xs ih =>
    cases b with
    | nil => right; rfl
    | cons y ys =>
      by_cases h1 : x.toNat < y.toNat
      · left; simp [leChars, h1]
      · by_cases h2 : y.toNat < x.toNat
        · right; simp [leChars, h2]
        · rcases ih ys with h | h
          · left; simp [leChars, h1, h2, h]
          · right; simp [leChars, h1, h2, h]

theorem leChars_trans (a b c : List Char) (h1 : leChars a b = true)
    (h2 : leChars b c = true) : leChars a c = true := by
  induction a generalizing b c with
  | nil => rfl
  | cons x xs ih =>
    cases b with
    | nil => exact absurd h1 (by simp [leChars])
    | cons y ys =>
      cases c with
      | nil => exact absurd h2 (by simp [leChars])
      | cons z zs =>
        simp only [leChars] at h1 h2 ⊢
        rcases Nat.lt_trichotomy x.toNat y.toNat with hxy | hxy | hxy
        · rcases Nat.lt_trichotomy y.toNat z.toNat with hyz | hyz | hyz
          · simp [Nat.lt_trans hxy hyz]
          · simp [hyz ▸ hxy]
          · simp [Nat.lt_asymm hyz, hyz] at h2
        · rcases Nat.lt_trichotomy y.toNat z.toNat with hyz | hyz | hyz
          · simp [hxy ▸ hyz]
          · have hxz : x.toNat = z.toNat := hxy.trans hyz
            simp [hxy, hyz, hxz, Nat.lt_irrefl] at h1 h2 ⊢
            exact ih ys zs h1 h2
          · simp [Nat.lt_asymm hyz, hyz] at h2
        · simp [Nat.lt_asymm hxy, hxy] at h1

theorem leChars_antisymm (a b : List Char) (h1 : leChars a b = true)
    (h2 : leChars b a = true) : a = b := by
  induction a generalizing b with
  | nil =>
    cases b with
    | nil => rfl
    | cons y ys => exact absurd h2 (by simp [leChars])
  | cons x xs ih =>
    cases b with
    | nil => exact absurd h1 (by simp [leChars])
    | cons y ys =>
      simp only [leChars] at h1 h2
      rcases Nat.lt_trichotomy x.toNat y.toNat with hxy | hxy | hxy
      · simp [Nat.lt_asymm hxy, hxy] at h2
      · have hx : x = y := by
          have : Char.ofNat x.toNat = Char.ofNat y.toNat := by rw [hxy]
          rwa [Char.ofNat_toNat, Char.ofNat_toNat] at this
        simp [hxy, Nat.lt_irrefl] at h1 h2
        rw [hx, ih ys h1 h2]
      · simp [Nat.lt_asymm hxy, hxy] at h1

theorem leStr_total (a b : String) : leStr a b = true ∨ leStr b a = true :=
  leChars_total a.data b.data

theorem leStr_trans {a b c : String} (h1 : leStr a b = true) (h2 : leStr b c = true) :
    leStr a c = true :=
  leChars_trans a.data b.data c.data h1 h2

theorem leStr_antisymm {a b : String} (h1 : leStr a b = true) (h2 : leStr b a = true) :
    a = b := by
  cases a with
  | mk da =>
    cases b with
    | mk db => exact congrArg String.mk (leChars_antisymm da db h1 h2)

/-! ### The embedded sort: a permutation of its input, sorted, and canonical -/

theorem insortKey_perm (key : α → String) (x : α) (l : List α) :
    (insortKey key x l).Perm (x :: l) := by
  induction l with
  | nil => exact List.Perm.refl _
  | cons y ys ih =>
    simp only [insortKey]
    split
    · exact List.Perm.refl _
    · exact (ih.cons y).trans (List.Perm.swap x y ys)

theorem sortKey_perm (key : α → String) (l : List α) : (sortKey key l).Perm l := by
  induction l with
  | nil => exact List.Perm.refl _
  | cons x xs ih => exact (insortKey_perm key x (sortKey key xs)).trans (ih.cons x)

theorem insortKey_sorted (key : α → String) (x : α) (l : List α)
    (hs : l.Pairwise (fun a b => leStr (key a) (key b) = true)) :
    (insortKey key x l).Pairwise (fun a b => leStr (key a) (key b) = true) := by
  induction l with
  | nil => simp [insortKey]
  | cons y ys ih =>
    rcases List.pairwise_cons.mp hs with ⟨hy, hys⟩
    simp only [insortKey]
    split
    · rename_i hxy
      refine List.pairwise_cons.mpr ⟨?_, hs⟩
      intro b hb
      rcases List.mem_cons.mp hb with rfl | hb
      · exact hxy
      · exact leStr_trans hxy (hy b hb)
    · rename_i hxy
      have hyx : leStr (key y) (key x) = true :=
        (leStr_total (key x) (key y)).resolve_left hxy
      refine List.pairwise_cons.mpr ⟨?_, ih hys⟩
      intro b hb
      rcases List.mem_cons.mp ((insortKey_perm key x ys).mem_iff.mp hb) with h | h
      · exact h ▸ hyx
      · exact hy b h

theorem sortKey_sorted (key : α → String) (l : List α) :
    (sortKey key l).Pairwise (fun a b => leStr (key a) (key b) = true) := by
  induction l with
  | nil => simp [sortKey]
  | cons x xs ih => exact insortKey_sorted key x (sortKey key xs) ih

theorem sortStrings_perm (l : List String) : (sortStrings l).Perm l :=
  sortKey_perm (fun s => s) l

theorem sortStrings_sorted (l : List String) :
    (sortStrings l).Pairwise (fun a b => leStr a b = true) :=
  sortKey_sorted (fun s => s) l

theorem sortStrings_eq_of_perm {l₁ l₂ : List String} (h : l₁.Perm l₂) :
    sortStrings l₁ = sortStrings l₂ := by
  haveI : IsAntisymm String (fun a b => leStr a b = true) :=
    ⟨fun a b h1 h2 => leStr_antisymm h1 h2⟩
  exact List.eq_of_perm_of_sorted
    ((sortStrings_perm l₁).trans (h.trans (sortStrings_perm l₂).symm))
    (sortStrings_sorted l₁) (sortStrings_sorted l₂)

/-! ### Path helpers -/

theorem toPosix_data (s : String) :
    (toPosix s).data = s.data.map (fun c => if c = '\\' then '/' else c) := rfl

theorem toPosix_no_bs (s : String) : ∀ c ∈ (toPosix s).data, c ≠ '\\' := by
  intro c hc
  rw [toPosix_data] at hc
  rcases List.mem_map.mp hc with ⟨x, _, rfl⟩
  by_cases hx : x = '\\'
  · simp [hx]
  · simp [hx]

theorem toPosix_eq_self {s : String} (h : ∀ c ∈ s.data, c ≠ '\\') : toPosix s = s := by
  cases s with
  | mk data =>
    refine congrArg String.mk ?_
    calc data.map (fun c => if c = '\\' then '/' else c)
        = data.map (fun c => c) := List.map_congr_left (fun c hc => by simp [h c hc])
      _ = data := List.map_id data

/-! ### The shared enumeration: sorted, filtered, duplicate-free -/

theorem eligibleFiles_sorted (fs : List FSFile) :
    (eligibleFiles fs).Pairwise (fun a b => leStr a.relPath b.relPath = true) :=
  List.Pairwise.filter isEligible (sortKey_sorted (fun f => f.relPath) fs)

theorem sortFS_perm (fs : List FSFile) : (sortFS fs).Perm fs := by
  unfold sortFS
  exact sortKey_perm (fun f => f.relPath) fs

theorem eligibleFiles_mem {fs : List FSFile} {f : FSFile} :
    f ∈ eligibleFiles fs ↔ f ∈ fs ∧ isEligible f = true := by
  unfold eligibleFiles
  rw [List.mem_filter, (sortFS_perm fs).mem_iff]

theorem eligibleFiles_nodup {fs : List FSFile}
    (h : (fs.map (fun f => f.relPath)).Nodup) :
    ((eligibleFiles fs).map (fun f => f.relPath)).Nodup := by
  have hperm : (fs.map (fun f => f.relPath)).Perm ((sortFS fs).map (fun f => f.relPath)) :=
    List.Perm.map _ (sortFS_perm fs).symm
  have hsorted : ((sortFS fs).map (fun f => f.relPath)).Nodup := hperm.nodup h
  exact List.Sublist.nodup (List.Sublist.map _ (List.filter_sublist (sortFS fs))) hsorted

/-! ### The hashing loops of both scripts -/

theorem hashEntries_ok_paths : ∀ {l : List FSFile} {es : List HEntry},
    hashEntries l = .ok es →
    es.map (fun e => e.path) = l.map (fun f => toPosix f.relPath) := by
  intro l
  induction l with
  | nil =>
    intro es h
    simp only [hashEntries] at h
    injection h with h2
    subst h2
    rfl
  | cons f fs ih =>
    intro es h
    simp only [hashEntries] at h
    cases hfd : f.data with
    | none => rw [hfd] at h; simp [sha256_file] at h
    | some bs =>
      rw [hfd] at h
      simp only [sha256_file] at h
      cases hr : hashEntries fs with
      | error e => rw [hr] at h; cases h
      | ok rest =>
        rw [hr] at h
        injection h with h2
        subst h2
        simp [ih hr]

theorem hashEntries_length {l : List FSFile} {es : List HEntry}
    (h : hashEntries l = .ok es) : es.length = l.length := by
  have := congrArg List.length (hashEntries_ok_paths h)
  simpa using this

theorem hashEntries_error_kind : ∀ {l : List FSFile} {e : Err},
    hashEntries l = .error e → e = .ioFailure := by
  intro l
  induction l with
  | nil => intro e h; cases h
  | cons f fs ih =>
    intro e h
    simp only [hashEntries] at h
    cases hfd : f.data with
    | none =>
      rw [hfd] at h
      simp only [sha256_file] at h
      injection h with h2
      exact h2.symm
    | some bs =>
      rw [hfd] at h
      simp only [sha256_file] at h
      cases hr : hashEntries fs with
      | error e2 =>
        rw [hr] at h
        injection h with h2
        exact h2 ▸ ih hr
      | ok rest => rw [hr] at h; cases h

theorem hashEntries_unreadable : ∀ {l : List FSFile} {f : FSFile},
    f ∈ l → f.data = none → hashEntries l = .error .ioFailure := by
  intro l
  induction l with
  | nil => intro f hf; cases hf
  | cons g gs ih =>
    intro f hf hd
    rcases List.mem_cons.mp hf with rfl | hf
    · simp [hashEntries, hd, sha256_file]
    · simp only [hashEntries]
      cases hgd : g.data with
      | none => simp [sha256_file]
      | some bs => simp [sha256_file, ih hf hd]

theorem hashEntries_readable : ∀ {l : List FSFile},
    (∀ f ∈ l, f.data.isSome) → ∃ es, hashEntries l = .ok es := by
  intro l
  induction l with
  | nil => intro _; exact ⟨[], rfl⟩
  | cons f fs ih =>
    intro h
    cases hfd : f.data with
    | none => exact absurd (h f (List.mem_cons_self f fs)) (by simp [hfd])
    | some bs =>
      rcases ih (fun g hg => h g (List.mem_cons_of_mem f hg)) with ⟨rest, hr⟩
      exact ⟨⟨toPosix f.relPath, sha256Hex bs, bs.length⟩ :: rest,
        by simp [hashEntries, hfd, sha256_file, hr]⟩

theorem collectEntries_ok_fields : ∀ {dirPath stage : String} {l : List FSFile}
    {es : List MEntry}, collectEntries dirPath stage l = .ok es →
    es.map (fun e => e.path) = l.map (fun f => toPosix (dirPath ++ "/" ++ f.relPath)) ∧
    es.map (fun e => e.stage) = l.map (fun _ => stage) := by
  intro dirPath stage l
  induction l with
  | nil =>
    intro es h
    simp only [collectEntries] at h
    injection h with h2
    subst h2
    exact ⟨rfl, rfl⟩
  | cons f fs ih =>
    intro es h
    simp only [collectEntries] at h
    cases hfd : f.data with
    | none => rw [hfd] at h; simp [sha256_file] at h
    | some bs =>
      rw [hfd] at h
      simp only [sha256_file] at h
      cases hr : collectEntries dirPath stage fs with
      | error e => rw [hr] at h; cases h
      | ok rest =>
        rw [hr] at h
        injection h with h2
        subst h2
        exact ⟨by simp [(ih hr).1], by simp [(ih hr).2]⟩

theorem collectEntries_length {dirPath stage : String} {l : List FSFile}
    {es : List MEntry} (h : collectEntries dirPath stage l = .ok es) :
    es.length = l.length := by
  have := congrArg List.length (collectEntries_ok_fields h).1
  simpa using this

theorem collectEntries_error_kind : ∀ {dirPath stage : String} {l : List FSFile}
    {e : Err}, collectEntries dirPath stage l = .error e → e = .ioFailure := by
  intro dirPath stage l
  induction l with
  | nil => intro e h; cases h
  | cons f fs ih =>
    intro e h
    simp only [collectEntries] at h
    cases hfd : f.data with
    | none =>
      rw [hfd] at h
      simp only [sha256_file] at h
      injection h with h2
      exact h2.symm
    | some bs =>
      rw [hfd] at h
      simp only [sha256_file] at h
      cases hr : collectEntries dirPath stage fs with
      | error e2 =>
        rw [hr] at h
        injection h with h2
        exact h2 ▸ ih hr
      | ok rest => rw [hr] at h; cases h

theorem collectEntries_unreadable : ∀ {dirPath stage : String} {l : List FSFile}
    {f : FSFile}, f ∈ l → f.data = none →
    collectEntries dirPath stage l = .error .ioFailure := by
  intro dirPath stage l
  induction l with
  | nil => intro f hf; cases hf
  | cons g gs ih =>
    intro f hf hd
    rcases List.mem_cons.mp hf with rfl | hf
    · simp [collectEntries, hd, sha256_file]
    · simp only [collectEntries]
      cases hgd : g.data with
      | none => simp [sha256_file]
      | some bs => simp [sha256_file, ih hf hd]

theorem collectEntries_readable : ∀ {dirPath stage : String} {l : List FSFile},
    (∀ f ∈ l, f.data.isSome) → ∃ es, collectEntries dirPath stage l = .ok es := by
  intro dirPath stage l
  induction l with
  | nil => intro _; exact ⟨[], rfl⟩
  | cons f fs ih =>
    intro h
    cases hfd : f.data with
    | none => exact absurd (h f (List.mem_cons_self f fs)) (by simp [hfd])
    | some bs =>
      rcases ih (fun g hg => h g (List.mem_cons_of_mem f hg)) with ⟨rest, hr⟩
      exact ⟨⟨toPosix (dirPath ++ "/" ++ f.relPath), sha256Hex bs, bs.length, stage⟩ :: rest,
        by simp [collectEntries, hfd, sha256_file, hr]⟩

/-! ### Inversion of the two entry points -/

theorem dirFiles_eq {d : DirArg} {fs : List FSFile} (h : d.st = DirState.dir fs) :
    dirFiles d = fs := by
  unfold dirFiles
  rw [h]

theorem dirFiles_missing {d : DirArg} (h : d.st = DirState.missing) : dirFiles d = [] := by
  unfold dirFiles
  rw [h]

theorem dirFiles_notDir {d : DirArg} (h : d.st = DirState.notDir) : dirFiles d = [] := by
  unfold dirFiles
  rw [h]

theorem hash_tree_ok {d ca : String} {fs : List FSFile} {r : TreeResult}
    (h : hash_tree d (DirState.dir fs) ca = .ok r) :
    hashEntries (eligibleFiles fs) = .ok r.files ∧
    r.root_hash = rootHashOf r.files ∧ r.file_count = r.files.length ∧
    r.directory = d ∧ r.computed_at = ca := by
  cases he : hashEntries (eligibleFiles fs) with
  | error e =>
    simp only [hash_tree, he] at h
    exact Except.noConfusion h
  | ok es =>
    simp only [hash_tree, he, Except.ok.injEq] at h
    subst h
    exact ⟨rfl, rfl, rfl, rfl, rfl⟩

theorem htMain_ok {d ca : String} {st : DirState} {o : HtOutputs}
    (h : htMain d st ca = .ok o) :
    hash_tree d st ca = .ok o.result ∧
    o.files_sha256 =
      strConcat (o.result.files.map (fun e => e.sha256 ++ "  " ++ e.path ++ "\n")) ∧
    o.root_hash_txt = o.result.root_hash ++ "\n" := by
  cases hr : hash_tree d st ca with
  | error e =>
    simp only [htMain, hr] at h
    exact Except.noConfusion h
  | ok r =>
    simp only [htMain, hr, Except.ok.injEq] at h
    subst h
    exact ⟨rfl, rfl, rfl⟩

theorem collect_files_error_kind {d : DirArg} {stage : String} {e : Err}
    (h : collect_files d stage = .error e) : e = .ioFailure := by
  cases hst : d.st with
  | missing =>
    simp only [collect_files, hst] at h
    exact Except.noConfusion h
  | notDir =>
    simp only [collect_files, hst] at h
    exact Except.noConfusion h
  | dir fs =>
    simp only [collect_files, hst] at h
    exact collectEntries_error_kind h

theorem collect_files_unreadable {d : DirArg} {stage : String} {f : FSFile}
    (hf : f ∈ eligibleFiles (dirFiles d)) (hd : f.data = none) :
    collect_files d stage = .error .ioFailure := by
  cases hst : d.st with
  | missing =>
    rw [dirFiles_missing hst] at hf
    exact absurd hf (List.not_mem_nil f)
  | notDir =>
    rw [dirFiles_notDir hst] at hf
    exact absurd hf (List.not_mem_nil f)
  | dir fs =>
    rw [dirFiles_eq hst] at hf
    simp only [collect_files, hst]
    exact collectEntries_unreadable hf hd

theorem collect_files_readable {d : DirArg} {stage : String}
    (h : ∀ f ∈ eligibleFiles (dirFiles d), f.data.isSome) :
    ∃ es, collect_files d stage = .ok es ∧
      es.length = (eligibleFiles (dirFiles d)).length := by
  cases hst : d.st with
  | missing =>
    refine ⟨[], by simp only [collect_files, hst], ?_⟩
    rw [dirFiles_missing hst]
    rfl
  | notDir =>
    refine ⟨[], by simp only [collect_files, hst], ?_⟩
    rw [dirFiles_notDir hst]
    rfl
  | dir fs =>
    rw [dirFiles_eq hst] at h
    rcases @collectEntries_readable d.path stage (eligibleFiles fs) h with ⟨es, hes⟩
    refine ⟨es, by simp only [collect_files, hst]; exact hes, ?_⟩
    rw [dirFiles_eq hst]
    exact collectEntries_length hes

theorem collectDerived_error_kind {a : Args} {e : Err}
    (h : collectDerived a = .error e) : e = .ioFailure := by
  cases hder : a.derived with
  | none =>
    simp only [collectDerived, hder] at h
    exact Except.noConfusion h
  | some d =>
    simp only [collectDerived, hder] at h
    exact collect_files_error_kind h

theorem mmMain_ok {a : Args} {dateStr uid now : String} {m : Manifest}
    (h : mmMain a dateStr uid now = .ok m) :
    ∃ meta raws canons deriveds,
      lookupSource a.source = some meta ∧
      collect_files a.raw "raw" = .ok raws ∧
      collect_files a.canonical "canonical" = .ok canons ∧
      collectDerived a = .ok deriveds ∧
      m.files = raws ++ canons ++ deriveds ∧
      (raws ++ canons ++ deriveds).isEmpty = false ∧
      m.root_hash = compute_root_hash m.files ∧
      m.record_count = countRecords a m.files ∧
      m.dataset_id = a.source ++ "_" ++ pyOrStr a.period_start dateStr ∧
      m.source_name = a.source ∧
      m.manifest_id = "IM-" ++ a.source ++ "-" ++ dateStr ++ "-" ++ uid := by
  cases hls : lookupSource a.source with
  | none =>
    simp only [mmMain, hls] at h
    exact Except.noConfusion h
  | some meta =>
    cases hr : collect_files a.raw "raw" with
    | error e =>
      simp only [mmMain, hls, hr] at h
      exact Except.noConfusion h
    | ok raws =>
      cases hc : collect_files a.canonical "canonical" with
      | error e =>
        simp only [mmMain, hls, hr, hc] at h
        exact Except.noConfusion h
      | ok canons =>
        cases hd : collectDerived a with
        | error e =>
          simp only [mmMain, hls, hr, hc, hd] at h
          exact Except.noConfusion h
        | ok deriveds =>
          cases he : (raws ++ canons ++ deriveds).isEmpty with
          | true =>
            simp only [mmMain, hls, hr, hc, hd, he, if_true] at h
            exact Except.noConfusion h
          | false =>
            simp only [mmMain, hls, hr, hc, hd, he, Bool.false_eq_true,
              if_false, Except.ok.injEq] at h
            subst h
            exact ⟨meta, raws, canons, deriveds, rfl, rfl, rfl, rfl, rfl,
              he, rfl, rfl, rfl, rfl, rfl⟩

theorem mmMain_error_raw {a : Args} {dateStr uid now : String} {meta : String × String}
    (hls : lookupSource a.source = some meta) {e : Err}
    (hr : collect_files a.raw "raw" = .error e) :
    mmMain a dateStr uid now = .error e := by
  unfold mmMain
  rw [hls, hr]

theorem mmMain_error_io_canonical {a : Args} {dateStr uid now : String}
    {meta : String × String} (hls : lookupSource a.source = some meta)
    (hc : collect_files a.canonical "canonical" = .error .ioFailure) :
    mmMain a dateStr uid now = .error .ioFailure := by
  unfold mmMain
  rw [hls]
  cases hr : collect_files a.raw "raw" with
  | error e2 => rw [collect_files_error_kind hr]
  | ok raws => rw [hc]

theorem mmMain_error_io_derived {a : Args} {dateStr uid now : String}
    {meta : String × String} (hls : lookupSource a.source = some meta)
    (hd : collectDerived a = .error .ioFailure) :
    mmMain a dateStr uid now = .error .ioFailure := by
  unfold mmMain
  rw [hls]
  cases hr : collect_files a.raw "raw" with
  | error e2 => rw [collect_files_error_kind hr]
  | ok raws =>
    cases hc : collect_files a.canonical "canonical" with
    | error e2 => rw [collect_files_error_kind hc]
    | ok canons => rw [hd]

/-! ### Record counting -/

theorem countRecords_eq_sum (a : Args) (files : List MEntry) :
    countRecords a files = (files.map (fun f =>
      if f.stage == "canonical" && endsWithStr f.path ".json" then
        fileRecordCount a f else 0)).sum := by
  have key : ∀ (l : List MEntry) (acc : Nat),
      l.foldl (fun acc f =>
        if f.stage == "canonical" && endsWithStr f.path ".json" then
          acc + fileRecordCount a f else acc) acc =
      acc + (l.map (fun f =>
        if f.stage == "canonical" && endsWithStr f.path ".json" then
          fileRecordCount a f else 0)).sum := by
    intro l
    induction l with
    | nil => intro acc; simp
    | cons f fs ih =>
      intro acc
      simp only [List.foldl_cons, List.map_cons, List.sum_cons]
      cases hcond : (f.stage == "canonical" && endsWithStr f.path ".json") with
      | true =>
        rw [if_pos rfl, if_pos rfl, ih, Nat.add_assoc]
      | false =>
        rw [if_neg (by simp), if_neg (by simp), ih, Nat.zero_add]
  have := key files 0
  rw [Nat.zero_add] at this
  exact this

theorem toPosix_append (a b : String) : toPosix (a ++ b) = toPosix a ++ toPosix b := by
  apply String.ext
  show (toPosix (a ++ b)).data = (toPosix a ++ toPosix b).data
  rw [String.data_append, toPosix_data, toPosix_data, toPosix_data,
    String.data_append, List.map_append]

theorem strAppend_left_cancel {a b c : String} (h : a ++ b = a ++ c) : b = c := by
  apply String.ext
  have hd : a.data ++ b.data = a.data ++ c.data := by
    rw [← String.data_append, ← String.data_append, h]
  exact List.append_cancel_left hd

theorem collect_files_empty {d : DirArg} {stage : String}
    (h : eligibleFiles (dirFiles d) = []) : collect_files d stage = .ok [] := by
  cases hst : d.st with
  | missing => simp only [collect_files, hst]
  | notDir => simp only [collect_files, hst]
  | dir fs =>
    simp only [collect_files, hst]
    rw [dirFiles_eq hst] at h
    rw [h]
    rfl

/-- C5 counterexample: `make_manifest.py` records the full scanned path
`"data/raw/x.csv"`, not the path `"x.csv"` relative to the scanned
directory. -/
theorem C5_counterexample :
    (collect_files ⟨"data/raw", DirState.dir [⟨"x.csv", some [104]⟩]⟩ "raw").toOption.map
        (fun es => es.map (fun e => e.path)) = some ["data/raw/x.csv"] ∧
    ("data/raw/x.csv" : String) ≠ "x.csv" :=
  ⟨by decide, by decide⟩

/-- C5 amended: `hash_tree` records the path relative to the scanned
directory while `collect_files` of `make_manifest.py` records the full
directory-prefixed path; in both, recorded paths contain no backslash
(forward-slash separators) and, for backslash-free inputs with distinct
relative paths, are unique within the enumeration. -/
theorem C5_recorded_paths (d ca dp stage : String) (fs : List FSFile)
    (r : TreeResult) (es : List MEntry)
    (hnodup : (fs.map (fun f => f.relPath)).Nodup)
    (hnb : ∀ f ∈ fs, ∀ c ∈ f.relPath.data, c ≠ '\\')
    (hht : hash_tree d (DirState.dir fs) ca = .ok r)
    (hcf : collect_files ⟨dp, DirState.dir fs⟩ stage = .ok es) :
    r.files.map (fun e => e.path) = (eligibleFiles fs).map (fun f => f.relPath) ∧
    es.map (fun e => e.path) =
      (eligibleFiles fs).map (fun f => toPosix (dp ++ "/" ++ f.relPath)) ∧
    (∀ p ∈ r.files.map (fun e => e.path), ∀ c ∈ p.data, c ≠ '\\') ∧
    (∀ p ∈ es.map (fun e => e.path), ∀ c ∈ p.data, c ≠ '\\') ∧
    (r.files.map (fun e => e.path)).Nodup ∧
    (es.map (fun e => e.path)).Nodup := by
  have hbs : ∀ f ∈ eligibleFiles fs, toPosix f.relPath = f.relPath := fun f hf =>
    toPosix_eq_self (hnb f (eligibleFiles_mem.mp hf).1)
  have hpr : r.files.map (fun e => e.path) =
      (eligibleFiles fs).map (fun f => toPosix f.relPath) :=
    hashEntries_ok_paths (hash_tree_ok hht).1
  have hpr2 : r.files.map (fun e => e.path) =
      (eligibleFiles fs).map (fun f => f.relPath) := by
    rw [hpr]
    exact List.map_congr_left hbs
  have hcf2 : collectEntries dp stage (eligibleFiles fs) = .ok es := hcf
  have hpe : es.map (fun e => e.path) =
      (eligibleFiles fs).map (fun f => toPosix (dp ++ "/" ++ f.relPath)) :=
    (collectEntries_ok_fields hcf2).1
  have hnd0 : ((eligibleFiles fs).map (fun f => f.relPath)).Nodup :=
    eligibleFiles_nodup hnodup
  refine ⟨hpr2, hpe, ?_, ?_, ?_, ?_⟩
  · rw [hpr]
    intro p hp
    rcases List.mem_map.mp hp with ⟨f, _, rfl⟩
    exact toPosix_no_bs f.relPath
  · rw [hpe]
    intro p hp
    rcases List.mem_map.mp hp with ⟨f, _, rfl⟩
    exact toPosix_no_bs (dp ++ "/" ++ f.relPath)
  · rw [hpr2]
    exact hnd0
  · rw [hpe]
    have hsplit : (eligibleFiles fs).map (fun f => toPosix (dp ++ "/" ++ f.relPath)) =
        ((eligibleFiles fs).map (fun f => f.relPath)).map
          (fun s => toPosix (dp ++ "/") ++ s) := by
      rw [List.map_map]
      refine List.map_congr_left (fun f hf => ?_)
      show toPosix (dp ++ "/" ++ f.relPath) = toPosix (dp ++ "/") ++ f.relPath
      rw [toPosix_append, hbs f hf]
    rw [hsplit]
    exact List.Nodup.map (fun x y hxy => strAppend_left_cancel hxy) hnd0

/-- Concrete one-file tree for the C5 witness. -/
def c5fs : List FSFile := [⟨"x.csv", some [104]⟩]

/-- The `hash_tree` result on `c5fs`. -/
def c5r : TreeResult :=
  ⟨"d", 1,
   [⟨"x.csv", "aaa9402664f1a41f40ebbc52c9993eb66aeb366602958fdfaa283b71e64db123", 1⟩],
   "09f6c7bc6f607d08cbe755e2573ccf111bce27adbe0c2d54c5f3cfe794260036", "t"⟩

/-- The `collect_files` result on `c5fs` under directory path `p`. -/
def c5es : List MEntry :=
  [⟨"p/x.csv", "aaa9402664f1a41f40ebbc52c9993eb66aeb366602958fdfaa283b71e64db123", 1, "raw"⟩]

/-- Witness for C5 at a concrete one-file tree. -/
theorem C5_witness :
    c5r.files.map (fun e => e.path) = (eligibleFiles c5fs).map (fun f => f.relPath) ∧
    c5es.map (fun e => e.path) =
      (eligibleFiles c5fs).map (fun f => toPosix ("p" ++ "/" ++ f.relPath)) ∧
    (∀ p ∈ c5r.files.map (fun e => e.path), ∀ c ∈ p.data, c ≠ '\\') ∧
    (∀ p ∈ c5es.map (fun e => e.path), ∀ c ∈ p.data, c ≠ '\\') ∧
    (c5r.files.map (fun e => e.path)).Nodup ∧
    (c5es.map (fun e => e.path)).Nodup :=
  C5_recorded_paths "d" "t" "p" "raw" c5fs c5r c5es
    (by decide) (by decide) (by decide) (by decide)

/-- C6 counterexample: a leading-dot file is excluded by both enumerations of
the program; no configuration includes it. -/
theorem C6_counterexample :
    hash_tree "d" (DirState.dir [⟨".hidden", some [49]⟩]) "t" =
      .ok ⟨"d", 0, [], sha256HexStr "", "t"⟩ ∧
    collect_files ⟨"c", DirState.dir [⟨".hidden", some [49]⟩]⟩ "raw" = .ok [] :=
  ⟨by decide, by decide⟩

/-- C6 amended: the single enumeration both scripts share unconditionally
excludes every entry whose basename begins with a dot; there is no
caller-selectable policy that includes such entries. -/
theorem C6_hidden_excluded (fs : List FSFile) (f : FSFile)
    (_hf : f ∈ fs) (hh : startsDot (baseName f.relPath) = true) :
    f ∉ eligibleFiles fs ∧
    (∀ g ∈ eligibleFiles fs, startsDot (baseName g.relPath) = false) := by
  constructor
  · intro hmem
    have h2 := (eligibleFiles_mem.mp hmem).2
    unfold isEligible at h2
    rw [hh] at h2
    exact Bool.noConfusion h2
  · intro g hg
    have h2 := (eligibleFiles_mem.mp hg).2
    unfold isEligible at h2
    cases hsd : startsDot (baseName g.relPath) with
    | false => rfl
    | true =>
      rw [hsd] at h2
      exact Bool.noConfusion h2

/-- Witness for C6 at a concrete hidden file. -/
theorem C6_witness :
    (⟨".a", some [49]⟩ : FSFile) ∉ eligibleFiles [⟨".a", some [49]⟩] ∧
    (∀ g ∈ eligibleFiles [(⟨".a", some [49]⟩ : FSFile)],
      startsDot (baseName g.relPath) = false) :=
  C6_hidden_excluded [⟨".a", some [49]⟩] ⟨".a", some [49]⟩ (by decide) (by decide)

/-- C7: an unreadable enumerated file makes both runs abort with the
`IOFailure` kind; the embedded entry points return no output record at all in
that case (outputs exist only in the `.ok` branch, written after the whole
digest computation). -/
theorem C7_unreadable_aborts (d ca dateStr uid now : String) (fs : List FSFile)
    (a : Args) (f g : FSFile)
    (hreg : (lookupSource a.source).isSome = true)
    (hf : f ∈ eligibleFiles fs) (hfd : f.data = none)
    (hg : ∃ dd ∈ allDirs a, g ∈ eligibleFiles (dirFiles dd)) (hgd : g.data = none) :
    htMain d (DirState.dir fs) ca = .error .ioFailure ∧
    mmMain a dateStr uid now = .error .ioFailure := by
  constructor
  · have h1 : hash_tree d (DirState.dir fs) ca = .error .ioFailure := by
      simp only [hash_tree, hashEntries_unreadable hf hfd]
    simp only [htMain, h1]
  · rcases Option.isSome_iff_exists.mp hreg with ⟨meta, hls⟩
    rcases hg with ⟨dd, hdd, hgm⟩
    rcases List.mem_append.mp hdd with hdd1 | hdd2
    · rcases List.mem_cons.mp hdd1 with heq | hdd1b
      · exact mmMain_error_raw hls (collect_files_unreadable (heq ▸ hgm) hgd)
      · rcases List.mem_cons.mp hdd1b with heq | hnil
        · exact mmMain_error_io_canonical hls
            (collect_files_unreadable (heq ▸ hgm) hgd)
        · exact absurd hnil (List.not_mem_nil dd)
    · cases hder : a.derived with
      | none =>
        rw [hder] at hdd2
        exact absurd hdd2 (List.not_mem_nil dd)
      | some dd2 =>
        rw [hder] at hdd2
        have heq : dd = dd2 := by
          rcases List.mem_cons.mp hdd2 with h | h
          · exact h
          · exact absurd h (List.not_mem_nil dd)
        have hcd : collectDerived a = .error .ioFailure := by
          simp only [collectDerived, hder]
          exact collect_files_unreadable (heq ▸ hgm) hgd
        exact mmMain_error_io_derived hls hcd

/-- The unreadable file of the C7 witness. -/
def c7bad : FSFile := ⟨"bad.csv", none⟩

/-- Arguments whose canonical directory holds an unreadable file, for the C7
witness. -/
def c7Args : Args :=
  { source := "smhi_temperature", raw := ⟨"r", .dir []⟩,
    canonical := ⟨"c", .dir [c7bad]⟩, derived := none, script := "s",
    script_version := "v", country := none, zone := none,
    period_start := none, period_end := none }

/-- Witness for C7 at a concrete unreadable file. -/
theorem C7_witness :
    htMain "d" (DirState.dir [c7bad]) "t" = .error .ioFailure ∧
    mmMain c7Args "20260301" "abcd1234" "t" = .error .ioFailure :=
  C7_unreadable_aborts "d" "t" "20260301" "abcd1234" "t" [c7bad] c7Args c7bad c7bad
    (by decide) (by decide) (by decide) (by decide) (by decide)

theorem mmMain_succeeds {a : Args} {dateStr uid now : String}
    {meta : String × String} {raws canons deriveds : List MEntry}
    (hls : lookupSource a.source = some meta)
    (hr : collect_files a.raw "raw" = .ok raws)
    (hc : collect_files a.canonical "canonical" = .ok canons)
    (hd : collectDerived a = .ok deriveds)
    (hne : (raws ++ canons ++ deriveds).isEmpty = false) :
    ∃ m, mmMain a dateStr uid now = .ok m := by
  simp only [mmMain, hls, hr, hc, hd, hne, Bool.false_eq_true, if_false]
  exact ⟨_, rfl⟩

/-- C8: `record_count` is the sum, over canonical-stage files whose path ends
in `.json`, of the parsed top-level list length, with read or parse failures
and non-list values contributing zero; and such failures never abort the
build — a run with a known source, readable files and a nonempty collection
succeeds regardless of whether any file parses. -/
theorem C8_record_count (a : Args) (dateStr uid now : String)
    (hreg : (lookupSource a.source).isSome = true)
    (hread : ∀ dd ∈ allDirs a, ∀ f ∈ eligibleFiles (dirFiles dd), f.data.isSome = true)
    (hne : eligibleFiles (dirFiles a.raw) ≠ [] ∨
           eligibleFiles (dirFiles a.canonical) ≠ [] ∨
           ∃ dd, a.derived = some dd ∧ eligibleFiles (dirFiles dd) ≠ []) :
    (∃ m, mmMain a dateStr uid now = .ok m) ∧
    (∀ m, mmMain a dateStr uid now = .ok m →
      m.record_count = (m.files.map (fun f =>
        if f.stage == "canonical" && endsWithStr f.path ".json" then
          fileRecordCount a f else 0)).sum) := by
  constructor
  · rcases Option.isSome_iff_exists.mp hreg with ⟨meta, hls⟩
    have hraw_mem : a.raw ∈ allDirs a :=
      List.mem_append_left _ (List.mem_cons_self _ _)
    have hcan_mem : a.canonical ∈ allDirs a :=
      List.mem_append_left _ (List.mem_cons_of_mem _ (List.mem_cons_self _ _))
    rcases @collect_files_readable a.raw "raw" (hread a.raw hraw_mem) with
      ⟨raws, hr, hrl⟩
    rcases @collect_files_readable a.canonical "canonical" (hread a.canonical hcan_mem)
      with ⟨canons, hc, hcl⟩
    cases hder : a.derived with
    | none =>
      have hd : collectDerived a = .ok [] := by simp only [collectDerived, hder]
      have hne2 : (raws ++ canons ++ ([] : List MEntry)).isEmpty = false := by
        cases hie : (raws ++ canons ++ ([] : List MEntry)).isEmpty with
        | false => rfl
        | true =>
          have hnil := List.isEmpty_iff.mp hie
          rcases List.append_eq_nil.mp hnil with ⟨hrc, -⟩
          rcases List.append_eq_nil.mp hrc with ⟨hrn, hcn⟩
          rcases hne with h | h | ⟨dd, hdd2, -⟩
          · rw [hrn] at hrl
            exact absurd (List.length_eq_zero.mp hrl.symm) h
          · rw [hcn] at hcl
            exact absurd (List.length_eq_zero.mp hcl.symm) h
          · rw [hder] at hdd2
            exact Option.noConfusion hdd2
      exact mmMain_succeeds hls hr hc hd hne2
    | some dd =>
      have hddmem : dd ∈ allDirs a := by
        refine List.mem_append_right _ ?_
        rw [hder]
        exact List.mem_cons_self dd []
      rcases @collect_files_readable dd "derived" (hread dd hddmem) with
        ⟨ders, hdok, hdl⟩
      have hd : collectDerived a = .ok ders := by
        simp only [collectDerived, hder]
        exact hdok
      have hne2 : (raws ++ canons ++ ders).isEmpty = false := by
        cases hie : (raws ++ canons ++ ders).isEmpty with
        | false => rfl
        | true =>
          have hnil := List.isEmpty_iff.mp hie
          rcases List.append_eq_nil.mp hnil with ⟨hrc, hdn⟩
          rcases List.append_eq_nil.mp hrc with ⟨hrn, hcn⟩
          rcases hne with h | h | ⟨dd2, hdd2, hdne⟩
          · rw [hrn] at hrl
            exact absurd (List.length_eq_zero.mp hrl.symm) h
          · rw [hcn] at hcl
            exact absurd (List.length_eq_zero.mp hcl.symm) h
          · rw [hder] at hdd2
            injection hdd2 with hdd3
            subst hdd3
            rw [hdn] at hdl
            exact absurd (List.length_eq_zero.mp hdl.symm) hdne
      exact mmMain_succeeds hls hr hc hd hne2
  · intro m hok
    rcases mmMain_ok hok with ⟨meta, raws, canons, ders, -, -, -, -, -, -, -, hrc, -, -, -⟩
    rw [hrc, countRecords_eq_sum]

/-- Arguments for the C8 witness: one canonical list file and one
unparseable canonical file. -/
def c8Args : Args :=
  { source := "building_profiles", raw := ⟨"r", .dir []⟩,
    canonical := ⟨"c", .dir [⟨"good.json", some (strBytes "[1,2]")⟩,
                             ⟨"bad.json", some (strBytes "not json")⟩]⟩,
    derived := none, script := "s", script_version := "v", country := none,
    zone := none, period_start := none, period_end := none }

/-- Witness for C8 at a concrete run with one parseable and one unparseable
canonical file. -/
theorem C8_witness :
    (∃ m, mmMain c8Args "20260301" "abcd1234" "t" = .ok m) ∧
    (∀ m, mmMain c8Args "20260301" "abcd1234" "t" = .ok m →
      m.record_count = (m.files.map (fun f =>
        if f.stage == "canonical" && endsWithStr f.path ".json" then
          fileRecordCount c8Args f else 0)).sum) :=
  C8_record_count c8Args "20260301" "abcd1234" "t" (by decide) (by decide)
    (Or.inr (Or.inl (by decide)))

/-- C9 counterexample: the root-digest artifact is not the bare hex digest
string — `hash_tree.py` writes the digest followed by a newline. -/
theorem C9_counterexample :
    (htMain "d" (DirState.dir [⟨"x.csv", some [104]⟩]) "t").toOption.map
        (fun o => o.root_hash_txt) =
      some "09f6c7bc6f607d08cbe755e2573ccf111bce27adbe0c2d54c5f3cfe794260036\n" ∧
    ("09f6c7bc6f607d08cbe755e2573ccf111bce27adbe0c2d54c5f3cfe794260036\n" : String) ≠
      "09f6c7bc6f607d08cbe755e2573ccf111bce27adbe0c2d54c5f3cfe794260036" :=
  ⟨by decide, by decide⟩

/-- C9 amended: the digest-list artifact is exactly one
`"{digest}  {path}\n"` line per enumerated file, in sorted-path order, and
the root-digest artifact is the hex root digest followed by a single
newline. -/
theorem C9_artifacts (d ca : String) (fs : List FSFile) (o : HtOutputs)
    (hnb : ∀ f ∈ fs, ∀ c ∈ f.relPath.data, c ≠ '\\')
    (h : htMain d (DirState.dir fs) ca = .ok o) :
    o.files_sha256 =
      strConcat (o.result.files.map (fun e => e.sha256 ++ "  " ++ e.path ++ "\n")) ∧
    o.result.files.map (fun e => e.path) = (eligibleFiles fs).map (fun f => f.relPath) ∧
    (o.result.files.map (fun e => e.path)).Pairwise (fun p q => leStr p q = true) ∧
    o.root_hash_txt = o.result.root_hash ++ "\n" := by
  rcases htMain_ok h with ⟨hht, hfsh, hrt⟩
  have hbs : ∀ f ∈ eligibleFiles fs, toPosix f.relPath = f.relPath := fun f hf =>
    toPosix_eq_self (hnb f (eligibleFiles_mem.mp hf).1)
  have hpr : o.result.files.map (fun e => e.path) =
      (eligibleFiles fs).map (fun f => f.relPath) := by
    rw [hashEntries_ok_paths (hash_tree_ok hht).1]
    exact List.map_congr_left hbs
  refine ⟨hfsh, hpr, ?_, hrt⟩
  rw [hpr]
  exact List.pairwise_map.mpr (eligibleFiles_sorted fs)

/-- The artifacts `hash_tree.py` writes on the one-file tree `c5fs`. -/
def c9out : HtOutputs :=
  ⟨"aaa9402664f1a41f40ebbc52c9993eb66aeb366602958fdfaa283b71e64db123  x.csv\n",
   "09f6c7bc6f607d08cbe755e2573ccf111bce27adbe0c2d54c5f3cfe794260036\n",
   c5r⟩

/-- Witness for C9 at a concrete one-file tree. -/
theorem C9_witness :
    c9out.files_sha256 =
      strConcat (c9out.result.files.map (fun e => e.sha256 ++ "  " ++ e.path ++ "\n")) ∧
    c9out.result.files.map (fun e => e.path) =
      (eligibleFiles c5fs).map (fun f => f.relPath) ∧
    (c9out.result.files.map (fun e => e.path)).Pairwise (fun p q => leStr p q = true) ∧
    c9out.root_hash_txt = c9out.result.root_hash ++ "\n" :=
  C9_artifacts "d" "t" c5fs c9out (by decide) (by decide)

/-- C10: `dataset_id` is the source name, an underscore, and the supplied
period-start; when the argument is omitted the period component silently
defaults to the run-date string, making `dataset_id` run-date-dependent. -/
theorem C10_dataset_id (a : Args) (dateStr uid now : String) (m : Manifest)
    (h : mmMain a dateStr uid now = .ok m) :
    m.dataset_id = a.source ++ "_" ++ pyOrStr a.period_start dateStr ∧
    (a.period_start = none → m.dataset_id = a.source ++ "_" ++ dateStr) ∧
    (∀ s, a.period_start = some s → s ≠ "" →
      m.dataset_id = a.source ++ "_" ++ s) := by
  rcases mmMain_ok h with ⟨meta, raws, canons, ders, -, -, -, -, -, -, -, -, hds, -, -⟩
  refine ⟨hds, fun hps => ?_, fun s hps hs => ?_⟩
  · rw [hds, hps]
    rfl
  · rw [hds, hps]
    show a.source ++ "_" ++ (if s = "" then dateStr else s) = a.source ++ "_" ++ s
    rw [if_neg hs]

/-- Arguments for the C10 witness: a supplied period start. -/
def c10Args : Args :=
  { source := "entsoe_day_ahead", raw := ⟨"r", .dir [⟨"x", some [104]⟩]⟩,
    canonical := ⟨"c", .dir []⟩, derived := none, script := "s",
    script_version := "v", country := none, zone := none,
    period_start := some "2026-02-01", period_end := none }

/-- The manifest produced by the C10 witness run. -/
def c10m : Manifest :=
  { manifest_id := "IM-entsoe_day_ahead-20260301-abcd1234",
    source_name := "entsoe_day_ahead",
    source_url := "https://transparency.entsoe.eu/",
    source_license := "ENTSO-E Open Data",
    dataset_id := "entsoe_day_ahead_2026-02-01",
    fetched_at := "t", script := "s", script_version := "v",
    parameters := [("period_start", "2026-02-01")],
    files := [⟨"r/x", "aaa9402664f1a41f40ebbc52c9993eb66aeb366602958fdfaa283b71e64db123",
               1, "raw"⟩],
    root_hash := "09f6c7bc6f607d08cbe755e2573ccf111bce27adbe0c2d54c5f3cfe794260036",
    record_count := 0, created_at := "t" }

/-- Witness for C10 at a concrete run. -/
theorem C10_witness :
    c10m.dataset_id = c10Args.source ++ "_" ++ pyOrStr c10Args.period_start "20260301" ∧
    (c10Args.period_start = none → c10m.dataset_id = c10Args.source ++ "_" ++ "20260301") ∧
    (∀ s, c10Args.period_start = some s → s ≠ "" →
      c10m.dataset_id = c10Args.source ++ "_" ++ s) :=
  C10_dataset_id c10Args "20260301" "abcd1234" "t" c10m (by decide)

/-! ### Embedding sanity: SHA-256 test vectors -/

theorem sha256_empty_vector :
    sha256Hex [] = "e3b0c44298fc1c149afbf4c8996fb92427ae41e4649b934ca495991b7852b855" := by
  decide

theorem sha256_abc_vector : sha256HexStr "abc" =
    "ba7816bf8f01cfea414140de5dae2223b00361a396177a9cb410ff61f20015ad" := by
  decide

/-! ## The claims -/

/-- C1: for every list of enumerated files the root digest is the SHA-256 of
the concatenation of the per-file hex digests sorted lexicographically, so it
is a pure function of the multiset of content digests and is unchanged by any
permutation of enumeration order — for `compute_root_hash` of
`make_manifest.py` and for the `root_hash` computed by `hash_tree`. -/
theorem C1_root_digest_sorted_concat :
    (∀ l : List MEntry, compute_root_hash l =
      sha256HexStr (strConcat (sortStrings (l.map (fun f => f.sha256))))) ∧
    (∀ l1 l2 : List MEntry,
      (l1.map (fun f => f.sha256)).Perm (l2.map (fun f => f.sha256)) →
      compute_root_hash l1 = compute_root_hash l2) ∧
    (∀ (d ca : String) (fs : List FSFile) (r : TreeResult),
      hash_tree d (DirState.dir fs) ca = .ok r →
      r.root_hash =
        sha256HexStr (strConcat (sortStrings (r.files.map (fun e => e.sha256))))) := by
  refine ⟨fun l => rfl, fun l1 l2 h => ?_, fun d ca fs r h => ?_⟩
  · unfold compute_root_hash
    rw [sortStrings_eq_of_perm h]
  · exact (hash_tree_ok h).2.1

/-- Concrete tree result used to instantiate the C1 witness. -/
def c1res : TreeResult :=
  ⟨"d", 0, [], "e3b0c44298fc1c149afbf4c8996fb92427ae41e4649b934ca495991b7852b855", "t"⟩

/-- Witness for C1 at concrete inputs: two permuted two-element digest lists
combine to the same root, and a concrete `hash_tree` result satisfies the
sorted-concatenation equation. -/
theorem C1_witness :
    (compute_root_hash [⟨"p", "bb", 0, "raw"⟩, ⟨"q", "aa", 1, "canonical"⟩] =
      compute_root_hash [⟨"q", "aa", 1, "canonical"⟩, ⟨"p", "bb", 0, "raw"⟩]) ∧
    c1res.root_hash =
      sha256HexStr (strConcat (sortStrings (c1res.files.map (fun e => e.sha256)))) :=
  ⟨C1_root_digest_sorted_concat.2.1 _ _ (by decide),
   C1_root_digest_sorted_concat.2.2 "d" "t" [] c1res (by decide)⟩

/-- The worked-example canonical file `a.json` with content `[1,2]`. -/
def c2A : FSFile := ⟨"a.json", some (strBytes "[1,2]")⟩

/-- The worked-example canonical file `b.json` with content `[3]`. -/
def c2B : FSFile := ⟨"b.json", some (strBytes "[3]")⟩

/-- The worked-example run: an empty raw directory and a canonical directory
holding exactly `a.json` and `b.json`. -/
def c2Args : Args :=
  { source := "entsoe_day_ahead", raw := ⟨"data/raw", .dir []⟩,
    canonical := ⟨"data/canonical", .dir [c2A, c2B]⟩, derived := none,
    script := "scripts/ingest_entsoe.py", script_version := "v1.0.0",
    country := none, zone := none, period_start := some "2026-02-01",
    period_end := none }

/-- C2: on the two canonical files `a.json` = `[1,2]` and `b.json` = `[3]`,
the manifest's `record_count` is 3 and its root digest is the SHA-256 of the
sorted-order concatenation of the two per-file hex digests. -/
theorem C2_worked_example :
    (mmMain c2Args "20260301" "abcd1234" "t").toOption.map
        (fun m => (m.record_count, m.root_hash)) =
      some (3, sha256HexStr (strConcat (sortStrings
        [sha256HexStr "[1,2]", sha256HexStr "[3]"]))) := by
  decide

/-- C3 counterexample: on an empty directory, tree hashing does not fail with
`EmptyResult` — `hash_tree.py` succeeds and writes artifacts for zero files,
with the root digest of the empty concatenation. -/
theorem C3_counterexample :
    htMain "d" (DirState.dir []) "t" =
      .ok ⟨"",
        "e3b0c44298fc1c149afbf4c8996fb92427ae41e4649b934ca495991b7852b855\n",
        ⟨"d", 0, [],
         "e3b0c44298fc1c149afbf4c8996fb92427ae41e4649b934ca495991b7852b855", "t"⟩⟩ := by
  decide

/-- C3 amended: on zero eligible files the manifest build fails with the
`EmptyResult` kind and writes no manifest, while tree hashing succeeds with a
zero-file result whose root digest is the hash of the empty concatenation. -/
theorem C3_empty_handling (a : Args) (dateStr uid now d ca : String)
    (fs : List FSFile)
    (hreg : (lookupSource a.source).isSome = true)
    (hraw : eligibleFiles (dirFiles a.raw) = [])
    (hcanon : eligibleFiles (dirFiles a.canonical) = [])
    (hder : ∀ dd, a.derived = some dd → eligibleFiles (dirFiles dd) = [])
    (hfs : eligibleFiles fs = []) :
    mmMain a dateStr uid now = .error .emptyResult ∧
    hash_tree d (DirState.dir fs) ca = .ok ⟨d, 0, [], sha256HexStr "", ca⟩ := by
  constructor
  · rcases Option.isSome_iff_exists.mp hreg with ⟨meta, hls⟩
    have hr := @collect_files_empty a.raw "raw" hraw
    have hc := @collect_files_empty a.canonical "canonical" hcanon
    have hd : collectDerived a = .ok [] := by
      cases hdd : a.derived with
      | none => simp only [collectDerived, hdd]
      | some dd =>
        simp only [collectDerived, hdd]
        exact collect_files_empty (hder dd hdd)
    unfold mmMain
    rw [hls, hr, hc, hd]
    rfl
  · simp only [hash_tree, hfs]
    rfl

/-- Arguments with every stage empty, used to instantiate the C3 witness. -/
def c3Args : Args :=
  { source := "eurostat_hdd", raw := ⟨"data/raw", .dir []⟩,
    canonical := ⟨"data/canonical", .dir []⟩, derived := none,
    script := "s", script_version := "v", country := none, zone := none,
    period_start := none, period_end := none }

/-- Witness for C3 at a concrete zero-file run. -/
theorem C3_witness :
    mmMain c3Args "20260301" "abcd1234" "t" = .error .emptyResult ∧
    hash_tree "d" (DirState.dir []) "t" = .ok ⟨"d", 0, [], sha256HexStr "", "t"⟩ :=
  C3_empty_handling c3Args "20260301" "abcd1234" "t" "d" "t" []
    (by decide) (by decide) (by decide)
    (fun dd h => Option.noConfusion h) (by decide)

/-- Arguments whose raw path is missing while canonical holds one file, used
by the C4 counterexample. -/
def c4Args : Args :=
  { source := "eurostat_hdd", raw := ⟨"data/raw", .missing⟩,
    canonical := ⟨"data/canonical", .dir [⟨"x.json", some (strBytes "[]")⟩]⟩,
    derived := none, script := "s", script_version := "v", country := none,
    zone := none, period_start := none, period_end := none }

/-- C4 counterexample: a missing raw path does not make `make_manifest.py`
fail — `collect_files` silently yields an empty list and the run succeeds and
writes a manifest. -/
theorem C4_counterexample :
    collect_files ⟨"data/raw", DirState.missing⟩ "raw" = .ok [] ∧
    (mmMain c4Args "20260301" "abcd1234" "t").toOption.isSome = true := by
  exact ⟨rfl, by decide⟩

/-- C4 amended: `hash_tree` rejects a missing or non-directory path with the
`InvalidInput` (`ValueError`) kind before writing anything, while
`make_manifest.py`'s per-stage `collect_files` silently returns an empty
collection for such paths instead of failing. -/
theorem C4_invalid_path_handling (d ca dp stage : String) :
    hash_tree d DirState.missing ca = .error .invalidInput ∧
    hash_tree d DirState.notDir ca = .error .invalidInput ∧
    htMain d DirState.missing ca = .error .invalidInput ∧
    htMain d DirState.notDir ca = .error .invalidInput ∧
    collect_files ⟨dp, DirState.missing⟩ stage = .ok [] ∧
    collect_files ⟨dp, DirState.notDir⟩ stage = .ok [] :=
  ⟨rfl, rfl, rfl, rfl, rfl, rfl⟩
